import Mathlib

/-!
Verification development for the MySmartCart price-ingestion pipeline.

The TypeScript sources are shallowly embedded as executable Lean
definitions: pure string processing (canonical-name normalization,
filename store-id grammars) is translated regex step by regex step;
stateful collector/decoder runs are modelled as pure functions from the
relevant inputs (ledger contents, fetched response, parsed XML document,
per-batch database outcomes) to the resulting ledger writes.  External
primitives (HTTP, gzip decompression, XML parsing, SHA-256) appear as
explicit inputs or function parameters.
-/

/-! ## Character classes (JS regex `\s`, `\d`, brackets, `[xX×]`) -/

/-- JS whitespace (`\s`, also used by `String.prototype.trim`): space, tab,
newline, carriage return, vertical tab, form feed, NBSP, BOM.  (The exotic
Unicode space family is omitted; no proof depends on the exact set.) -/
def isWsC (c : Char) : Bool :=
  c = ' ' || c = '\t' || c = '\n' || c = '\r' || c = '\x0b' || c = '\x0c' ||
  c = Char.ofNat 0xa0 || c = Char.ofNat 0xfeff

/-- JS `\d` is exactly `[0-9]`. -/
def isDigitC (c : Char) : Bool :=
  '0' ≤ c && c ≤ '9'

/-- The bracket class `[()[\]{}]` of `normalizeCanonical`. -/
def isBracketC (c : Char) : Bool :=
  c = '(' || c = ')' || c = '[' || c = ']' || c = Char.ofNat 0x7b || c = Char.ofNat 0x7d

/-- The multiplier class `[xX×]` of `normalizeCanonical`. -/
def isMulChar (c : Char) : Bool :=
  c = 'x' || c = 'X' || c = '×'

/-- Length of the longest prefix of `l` whose characters all satisfy `p`
(the extent a greedy `p*` / `p+` consumes). -/
def countWhile (p : Char → Bool) : List Char → Nat
  | [] => 0
  | c :: cs => if p c then countWhile p cs + 1 else 0

/-- Case-insensitive literal match: if (lower-cased) `pat` is a prefix of
(lower-cased) `l`, return the rest of `l`. -/
def ciLit : List Char → List Char → Option (List Char)
  | [], l => some l
  | _ :: _, [] => none
  | p :: ps, c :: cs => if c.toLower = p.toLower then ciLit ps cs else none

/-! ## `normalizeCanonical` (src/scrapers/yohananof/parse/parse_yohananof.ts:10-18)

```
name.replace(/\d+(\.\d+)?\s*(גרם|גר|ג|מ"ל|מל|ליטר|ל|ק"ג|קג|יח'|יחידה|יחידות|מ"ג|מג|ml|gr|kg|l|g)/gi, "")
    .replace(/\s*[xX×]\s*\d+/g, "")
    .replace(/\d+%/g, "")
    .replace(/[()[\]{}]/g, "")
    .replace(/\s+/g, " ")
    .trim()
```

Each global replace-with-empty is a left-to-right scan: at each position
try the pattern; on a match skip the matched characters, otherwise keep
the character and move on.  For these particular patterns the regex
engine's backtracking is vacuous (each `X+`/`X*` is followed by a literal
no `X` can match), so each pattern has a deterministic matcher returning
the number of characters a match starting here consumes. -/

/-- The unit-word alternation, in the source's order (first alternative
wins).  `יח'` carries an apostrophe, written via its code point. -/
def unitWords : List (List Char) :=
  [ "גרם".data, "גר".data, "ג".data, "מ\"ל".data, "מל".data, "ליטר".data,
    "ל".data, "ק\"ג".data, "קג".data, "יח".data ++ [Char.ofNat 39],
    "יחידה".data, "יחידות".data, "מ\"ג".data, "מג".data,
    "ml".data, "gr".data, "kg".data, "l".data, "g".data ]

/-- Try the unit alternatives in order against `l`; first case-insensitive
prefix match wins, returning the number of characters it consumes. -/
def tryUnitsGo (l : List Char) : List (List Char) → Option Nat
  | [] => none
  | u :: us => match ciLit u l with
    | some _ => some u.length
    | none => tryUnitsGo l us

/-- First unit word that is a (case-insensitive) prefix of `l`; returns the
number of characters it consumes. -/
def tryUnits (l : List Char) : Option Nat :=
  tryUnitsGo l unitWords

/-- Matcher for `\d+(\.\d+)?\s*(unit words)` at the head of `l`. -/
def tryUnitTok (l : List Char) : Option Nat :=
  let d := countWhile isDigitC l
  if d = 0 then none
  else
    let r1 := l.drop d
    let dec : Nat × List Char :=
      match r1 with
      | '.' :: fr =>
        let d2 := countWhile isDigitC fr
        if d2 = 0 then (0, r1) else (d2 + 1, fr.drop d2)
      | _ => (0, r1)
    let w := countWhile isWsC dec.2
    match tryUnits (dec.2.drop w) with
    | some u => some (d + dec.1 + w + u)
    | none => none

/-- Matcher for `\s*[xX×]\s*\d+` at the head of `l`. -/
def tryMul (l : List Char) : Option Nat :=
  let w1 := countWhile isWsC l
  match l.drop w1 with
  | [] => none
  | c :: rest =>
    if isMulChar c then
      let w2 := countWhile isWsC rest
      let d := countWhile isDigitC (rest.drop w2)
      if d = 0 then none else some (w1 + 1 + w2 + d)
    else none

/-- Matcher for `\d+%` at the head of `l`. -/
def tryPct (l : List Char) : Option Nat :=
  let d := countWhile isDigitC l
  if d = 0 then none
  else match l.drop d with
    | '%' :: _ => some (d + 1)
    | _ => none

/-- Global replace-with-empty scan.  The `Nat` state is the number of
characters of a previous match still to be skipped; our matchers always
consume at least one character when they succeed. -/
def replaceScanAux (tryM : List Char → Option Nat) : Nat → List Char → List Char
  | _, [] => []
  | n + 1, _ :: cs => replaceScanAux tryM n cs
  | 0, c :: cs =>
    match tryM (c :: cs) with
    | some k => replaceScanAux tryM (k - 1) cs
    | none => c :: replaceScanAux tryM 0 cs

def replaceScan (tryM : List Char → Option Nat) (l : List Char) : List Char :=
  replaceScanAux tryM 0 l

def stripUnits (l : List Char) : List Char := replaceScan tryUnitTok l
def stripMul (l : List Char) : List Char := replaceScan tryMul l
def stripPct (l : List Char) : List Char := replaceScan tryPct l

/-- `.replace(/[()[\]{}]/g, "")`. -/
def removeBrackets (l : List Char) : List Char :=
  l.filter (fun c => !isBracketC c)

/-- `.replace(/\s+/g, " ")`: every maximal whitespace run becomes one space. -/
def collapseWs : List Char → List Char
  | [] => []
  | c :: cs =>
    if isWsC c then
      match cs with
      | [] => [' ']
      | d :: _ => if isWsC d then collapseWs cs else ' ' :: collapseWs cs
    else c :: collapseWs cs

/-- `String.prototype.trim`: drop whitespace from both ends. -/
def trimWsL (l : List Char) : List Char :=
  ((l.dropWhile isWsC).reverse.dropWhile isWsC).reverse

/-- `normalizeCanonical` (parse_yohananof.ts:10-18). -/
def normalizeCanonical (s : String) : String :=
  String.mk (trimWsL (collapseWs (removeBrackets (stripPct (stripMul (stripUnits s.data))))))

/-! ## Filename grammar resolvers

`extractStoreIdFromFilename` exists in two per-chain copies
(src/unnamed/part_000:21-31 for yochananof, :289-307 for shufersal).
Each regex is unanchored, so matching scans for the leftmost position at
which the (deterministic, see above) pattern succeeds; the patterns are
tried in the source's order, first whole-string match wins. -/

/-- `String.prototype.padStart(3, "0")`. -/
def padStart3 (s : String) : String :=
  if s.length ≥ 3 then s else String.mk (List.replicate (3 - s.length) '0' ++ s.data)

/-- Leftmost-match scan: try the positional matcher at every suffix. -/
def scanFor (tryM : List Char → Option String) : List Char → Option String
  | [] => none
  | c :: cs =>
    match tryM (c :: cs) with
    | some cap => some cap
    | none => scanFor tryM cs

/-- `\d+-`: a nonempty digit run followed by a literal dash. -/
def reqDigitsDash (l : List Char) : Option (List Char) :=
  let d := countWhile isDigitC l
  if d = 0 then none
  else match l.drop d with
    | '-' :: r => some r
    | _ => none

/-- `([0-9]{1,4})-`: the captured store digits.  Because a digit cannot
match the following dash, the capture must be the entire digit run, whose
length must be between 1 and 4. -/
def capStoreDash (l : List Char) : Option (String × List Char) :=
  let d := countWhile isDigitC l
  if d = 0 || d > 4 then none
  else match l.drop d with
    | '-' :: r => some (String.mk (l.take d), r)
    | _ => none

/-- `\d{n}` followed by a non-digit: the digit run here has length exactly
`n`; returns the rest after it. -/
def exactDigits (n : Nat) (l : List Char) : Option (List Char) :=
  if countWhile isDigitC l = n then some (l.drop n) else none

/-- `\d{12}\.gz` (case-insensitive, no end anchor). -/
def tail12Gz (l : List Char) : Bool :=
  match exactDigits 12 l with
  | some r => (ciLit ".gz".data r).isSome
  | none => false

/-- `\d{8}-\d{6}\.gz` (case-insensitive, no end anchor). -/
def tail8Dash6Gz (l : List Char) : Bool :=
  match exactDigits 8 l with
  | some r =>
    match r with
    | '-' :: r2 =>
      match exactDigits 6 r2 with
      | some r3 => (ciLit ".gz".data r3).isSome
      | none => false
    | _ => false
  | none => false

/-- The common tail of every store-id grammar: the capture, followed by
the rest of the pattern (a boolean test on the remaining characters). -/
def capThen (cond : List Char → Bool) (l : List Char) : Option String :=
  match capStoreDash l with
  | some (cap, r) => if cond r then some cap else none
  | none => none

/-- `/PriceFull\d+-\d+-([0-9]{1,4})-\d{12}\.gz/i` at this position. -/
def tryYoPat1 (l : List Char) : Option String :=
  (ciLit "pricefull".data l).bind fun r0 =>
    (reqDigitsDash r0).bind fun r1 =>
      (reqDigitsDash r1).bind (capThen tail12Gz)

/-- `/PriceFull\d+-([0-9]{1,4})-\d{12}\.gz/i` at this position. -/
def tryYoPat2 (l : List Char) : Option String :=
  (ciLit "pricefull".data l).bind fun r0 =>
    (reqDigitsDash r0).bind (capThen tail12Gz)

/-- `extractStoreIdFromFilename`, yochananof variant (part_000:21-31). -/
def extractStoreIdFromFilename (nameOrUrl : String) : Option String :=
  match scanFor tryYoPat1 nameOrUrl.data with
  | some c => some (padStart3 c)
  | none =>
    match scanFor tryYoPat2 nameOrUrl.data with
    | some c => some (padStart3 c)
    | none => none

/-- `/Price\d+-\d+-([0-9]{1,4})-\d{8}-\d{6}\.gz/i` at this position. -/
def tryShPat1 (l : List Char) : Option String :=
  (ciLit "price".data l).bind fun r0 =>
    (reqDigitsDash r0).bind fun r1 =>
      (reqDigitsDash r1).bind (capThen tail8Dash6Gz)

/-- `/Price\d+-([0-9]{1,4})-\d{12}\.gz/i` at this position. -/
def tryShPat2 (l : List Char) : Option String :=
  (ciLit "price".data l).bind fun r0 =>
    (reqDigitsDash r0).bind (capThen tail12Gz)

/-- `/PriceFull\d+-\d+-([0-9]{1,4})-\d{8}-\d{6}\.gz/i` at this position. -/
def tryShPat3 (l : List Char) : Option String :=
  (ciLit "pricefull".data l).bind fun r0 =>
    (reqDigitsDash r0).bind fun r1 =>
      (reqDigitsDash r1).bind (capThen tail8Dash6Gz)

/-- `extractStoreIdFromFilename`, shufersal variant (part_000:289-307);
its fourth pattern coincides with the yochananof second pattern. -/
def extractStoreIdShufersal (nameOrUrl : String) : Option String :=
  match scanFor tryShPat1 nameOrUrl.data with
  | some c => some (padStart3 c)
  | none =>
    match scanFor tryShPat2 nameOrUrl.data with
    | some c => some (padStart3 c)
    | none =>
      match scanFor tryShPat3 nameOrUrl.data with
      | some c => some (padStart3 c)
      | none =>
        match scanFor tryYoPat2 nameOrUrl.data with
        | some c => some (padStart3 c)
        | none => none

/-! ## JS `Number()` and truthiness helpers -/

/-- Digits to a rational (as integer value). -/
def natOfDigits (l : List Char) : ℚ :=
  l.foldl (fun a c => a * 10 + (c.toNat - 48)) 0

/-- Decimal body `\d*(\.\d*)?` with at least one digit; other shapes are
NaN.  `jsNumber` models `Number()` on the strings these catalogs carry:
optionally signed decimal literals (no exponents/hex — such inputs, like
any unparseable text, yield `none` = NaN, which the source rejects via
`Number.isFinite`). -/
def parseDecimalQ (l : List Char) : Option ℚ :=
  let d1 := countWhile isDigitC l
  match l.drop d1 with
  | [] => if d1 = 0 then none else some (natOfDigits (l.take d1))
  | '.' :: fr =>
    let d2 := countWhile isDigitC fr
    if fr.drop d2 ≠ [] then none
    else if d1 = 0 && d2 = 0 then none
    else some (natOfDigits (l.take d1) + natOfDigits (fr.take d2) / (10 : ℚ) ^ d2)
  | _ => none

/-- Model of `Number(s)` for a string `s`: `none` means NaN/non-finite.
The empty (or all-whitespace) string converts to 0. -/
def jsNumber (s : String) : Option ℚ :=
  match trimWsL s.data with
  | [] => some 0
  | '-' :: r => (parseDecimalQ r).map (fun q => -q)
  | '+' :: r => parseDecimalQ r
  | l => parseDecimalQ l

/-- `Number(x)` where the field may be absent: `Number(undefined)` is NaN. -/
def jsNumberOpt (x : Option String) : Option ℚ :=
  x.bind jsNumber

/-- JS truthiness for a nullable string: `null`/`undefined` and `""` are
falsy. -/
def truthyStr : Option String → Option String
  | none => none
  | some s => if s = "" then none else some s

/-- `/^\d{8,14}$/` — the barcode-shaped item-code test. -/
def isBarcodeShaped (s : String) : Bool :=
  s.data.all isDigitC && decide (8 ≤ s.length) && decide (s.length ≤ 14)

/-! ## Catalog decoder (src/scrapers/yohananof/parse/parse_yohananof.ts)

The per-file body of `main` (lines 57-229) is embedded as a pure
function.  External effects become inputs: the storage download result,
the gzip bytes, the XML document produced by `pako.ungzip` +
`XMLParser.parse` (an `Option XmlRoot`, `none` when neither `doc.root`
nor `doc.Root` exists), and the per-batch outcome of the `prices` upsert
(`batchErr i` is the error message of chunk `i`, `none` on success).
The output records every `raw_files` status update the code issues, in
order, plus the `store_id` update and the successfully written chunks. -/

/-- One XML `Item`, with the fields the decoder reads.  Values are the
`String(...)`-rendered text of the element (the parser may yield numbers;
`String()` is applied by the source before use); `none` means the element
is absent (`undefined`). -/
structure XmlItem where
  ItemName : Option String := none
  ItemPrice : Option String := none
  ItemCode : Option String := none
  Quantity : Option String := none
  UnitOfMeasure : Option String := none
  PriceUpdateTime : Option String := none
  LastSaleDateTime : Option String := none
  bIsWeighted : Option String := none
  QtyInPackage : Option String := none
deriving DecidableEq

/-- The XML `root` element.  `ChainID`/`SubChainID`/`StoreID` model
`root.ChainID ?? root.ChainId` etc. (the two casings merged, `String()`
applied); `Items` is `toArray(root?.Items?.Item)` — `[]` when absent, a
singleton when the parser returned a single object. -/
structure XmlRoot where
  ChainID : Option String := none
  SubChainID : Option String := none
  StoreID : Option String := none
  BikoretNo : Option String := none
  Items : List XmlItem := []
deriving DecidableEq

/-- A `raw_files` row as the decoder selects it
(`select id, storage_path, store_id`). -/
structure RawFile where
  id : String
  storage_path : Option String
  store_id : Option String
deriving DecidableEq

/-- A `prices` row (the `PriceRow` type of parse_yohananof.ts:139-159).
Numeric fields use ℚ; `Number()` results that are NaN are collapsed to
`none` for the nullable fields (`bikoret_no`, `qty_in_package` — the
claims do not touch this corner). -/
structure PriceRow where
  raw_file_id : String
  chain : String
  sub_chain_id : Option String
  store_id : Option String
  bikoret_no : Option ℚ
  item_code : Option String
  barcode : Option String
  item_name : String
  canonical_key : Option String
  price : ℚ
  unit_qty : Option ℚ
  unit_of_measure : Option String
  price_update_time : Option String
  last_sale_datetime : Option String
  is_weighted : Option Bool
  qty_in_package : Option ℚ
deriving DecidableEq

/-- `String(it.ItemName ?? "").trim()` then `.replace(/\s+/g, " ")`. -/
def cleanNameOf (it : XmlItem) : String :=
  String.mk (collapseWs (trimWsL (it.ItemName.getD "").data))

/-- The per-item body of the decoder loop (parse_yohananof.ts:163-210):
`none` when the row is rejected (empty name, non-finite price, or falsy
item code), otherwise the `PriceRow` that is pushed. -/
def processItem (fid : String) (subChain : Option String) (sid : String)
    (bik : Option ℚ) (it : XmlItem) : Option PriceRow :=
  match jsNumberOpt it.ItemPrice with
  | none => none
  | some price =>
    if cleanNameOf it = "" then none
    else
      match truthyStr it.ItemCode with
      | none => none
      | some code =>
        some
          { raw_file_id := fid
            chain := "yohananof"
            sub_chain_id := subChain
            store_id := some sid
            bikoret_no := bik
            item_code := some code
            barcode :=
              match it.ItemCode with
              | some c => if isBarcodeShaped c then some c else none
              | none => none
            item_name := cleanNameOf it
            canonical_key :=
              if normalizeCanonical (cleanNameOf it) = "" then none
              else some (normalizeCanonical (cleanNameOf it))
            price := price
            unit_qty := jsNumberOpt it.Quantity
            unit_of_measure := it.UnitOfMeasure
            price_update_time := it.PriceUpdateTime
            last_sale_datetime := it.LastSaleDateTime
            is_weighted := it.bIsWeighted.map (fun s => s == "1")
            qty_in_package := jsNumberOpt it.QtyInPackage }

/-- The row-level filter of the decoder, as a predicate: line 168
(`!cleanName || !Number.isFinite(price)`) or line 186 (`!itemCode`). -/
def rowRejected (it : XmlItem) : Bool :=
  cleanNameOf it == "" || (jsNumberOpt it.ItemPrice).isNone || (truthyStr it.ItemCode).isNone

/-- The 500-row batching of `rows.slice(i, i + BATCH)`. -/
def chunkAux (acc : List PriceRow) : Nat → List PriceRow → List (List PriceRow)
  | _, [] => [acc.reverse]
  | 0, x :: xs => acc.reverse :: chunkAux [x] 499 xs
  | k + 1, x :: xs => chunkAux (x :: acc) k xs

def chunkList : List PriceRow → List (List PriceRow)
  | [] => []
  | x :: xs => chunkAux [x] 499 xs

/-- The batch-upsert loop (parse_yohananof.ts:213-225).  `be i` is the
database outcome for chunk `i`.  Returns the `raw_files` status updates
issued inside the loop and the chunks that were written.  NOTE the
source's `continue` in the error branch targets this inner loop, so the
loop always runs to completion. -/
def batchLoopAux (be : Nat → Option String) : Nat → List (List PriceRow) →
    List (String × Option String) × List (List PriceRow)
  | _, [] => ([], [])
  | i, b :: bs =>
    let rest := batchLoopAux be (i + 1) bs
    match be i with
    | some m => (("failed", some m) :: rest.1, rest.2)
    | none => (rest.1, b :: rest.2)

def batchLoop (be : Nat → Option String) (bs : List (List PriceRow)) :
    List (String × Option String) × List (List PriceRow) :=
  batchLoopAux be 0 bs

/-- Result of decoding one file: the ordered list of
`update raw_files set status/error` calls, the `store_id` update (if
reached), and the successfully upserted chunks. -/
structure FileResult where
  trace : List (String × Option String)
  storeIdUpdate : Option String
  written : List (List PriceRow)
deriving DecidableEq

/-- The status the ledger record holds after the decode run (`none` when
no status update was issued, i.e. the record keeps its prior status). -/
def finalStatus (r : FileResult) : Option String :=
  r.trace.getLast?.map (fun u => u.1)

/-- The error field after the decode run (outer `none`: untouched). -/
def finalError (r : FileResult) : Option (Option String) :=
  r.trace.getLast?.map (fun u => u.2)

/-- The store-id normalization of parse_yohananof.ts:118:
`storeIdStr ? storeIdStr.padStart(3,"0") : (f.store_id ? String(f.store_id).padStart(3,"0") : null)`. -/
def storeIdNormOf (f : RawFile) (root : XmlRoot) : Option String :=
  match truthyStr root.StoreID with
  | some s => some (padStart3 s)
  | none =>
    match truthyStr f.store_id with
    | some s => some (padStart3 s)
    | none => none

/-- Decoding from the parsed document onward (parse_yohananof.ts:103-228). -/
def processDoc (f : RawFile) (doc : Option XmlRoot) (be : Nat → Option String) : FileResult :=
  match doc with
  | none => ⟨[("failed", some "XML missing root")], none, []⟩
  | some root =>
    match storeIdNormOf f root with
    | none => ⟨[("failed", some "Missing StoreId in XML")], none, []⟩
    | some sid =>
      -- line 127: await update({ store_id: storeIdNorm })
      let bik := (root.BikoretNo.map jsNumber).join
      if root.Items = [] then
        ⟨[("failed", some "No Items in XML")], some sid, []⟩
      else
        let rows := root.Items.filterMap (processItem f.id root.SubChainID sid bik)
        let lw := batchLoop be (chunkList rows)
        -- line 227: unconditional update({ status: "parsed", error: null })
        ⟨lw.1 ++ [("parsed", none)], some sid, lw.2⟩

/-- The gzip signature test `buf.length > 2 && buf[0] === 0x1f &&
buf[1] === 0x8b` (parse_yohananof.ts:81, and `isGzip` in part_000:602-605;
note the source requires length strictly greater than 2). -/
def isGzipMagic : List Nat → Bool
  | b0 :: b1 :: _ :: _ => b0 == 0x1f && b1 == 0x8b
  | _ => false

/-- One full file iteration of the decoder (parse_yohananof.ts:57-229):
`dlErr` is the storage download error, `buf` the downloaded bytes, `doc`
the parsed document of the decompressed bytes. -/
def parseFile (f : RawFile) (dlErr : Option String) (buf : List Nat)
    (doc : Option XmlRoot) (be : Nat → Option String) : FileResult :=
  if f.storage_path = none then ⟨[], none, []⟩
  else
    match dlErr with
    | some m => ⟨[("failed", some m)], none, []⟩
    | none =>
      if isGzipMagic buf then processDoc f doc be
      else ⟨[("failed", some "Not a gzip file (magic bytes missing)")], none, []⟩

/-! ## Raw-file ledger and collectors (src/unnamed/part_000)

Ledger writes: the fetch-based collectors (`runYohananofCollector`,
part_000:82-237, chain `"yochananof"`, and `runShufersalCollector`,
part_000:370-505, chain `"shufersal"`) use plain
`supabase.from("raw_files").insert(row)`; the curl/playwright collector
(`runYohananofCollector`, part_000:754-853, chain `"yohananof"`) writes
through `upsertRawFile` (part_000:613-646) with
`onConflict: "chain,file_url"` and never sends an `id`. -/

/-- A `raw_files` row as the collectors write it. -/
structure LedgerRow where
  chain : String
  store_id : Option String
  file_url : String
  storage_path : Option String
  sha256 : Option String
  fetched_at : Option String
  status : String
  error : Option String
deriving DecidableEq

def keyMatch (c u : String) (r : LedgerRow) : Bool :=
  r.chain == c && r.file_url == u

/-- Number of ledger records with key `(c, u)`. -/
def countKey (L : List LedgerRow) (c u : String) : Nat :=
  (L.filter (keyMatch c u)).length

/-- The dedup existence check (`select id … eq chain … eq file_url`). -/
def hasKey (L : List LedgerRow) (c u : String) : Bool :=
  L.any (keyMatch c u)

/-- `insert(row)`: appends a new record. -/
def insertRawFiles (L : List LedgerRow) (row : LedgerRow) : List LedgerRow :=
  L ++ [row]

/-- `upsert(row, { onConflict: "chain,file_url" })` (part_000:626-641):
on conflict the existing record's listed columns are replaced (no `id` is
sent), otherwise a new record is inserted. -/
def upsertRawFiles (L : List LedgerRow) (row : LedgerRow) : List LedgerRow :=
  if hasKey L row.chain row.file_url then
    L.map (fun r => if keyMatch row.chain row.file_url r then row else r)
  else L ++ [row]

/-- The fields of a `fetch` response the collectors read. -/
structure FetchResponse where
  ok : Bool
  httpStatus : Nat
  body : List Nat
  contentDisposition : Option String
  finalUrl : String
deriving DecidableEq

/-- `/filename="?([^"]+)"?/i` on the content-disposition header, at one
position: after the literal, an optional quote, then a maximal nonempty
run of non-quote characters. -/
def tryCDName (l : List Char) : Option String :=
  match ciLit "filename=".data l with
  | none => none
  | some r =>
    let r2 := match r with
      | '"' :: t => t
      | _ => r
    let cap := r2.takeWhile (fun c => c ≠ '"')
    if cap = [] then none else some (String.mk cap)

def findCDFilename (s : String) : Option String :=
  scanFor tryCDName s.data

/-- `new URL(u).pathname` basename, modelled textually: strip query and
fragment, take the segment after the last slash. -/
def urlPathOf (u : String) : String :=
  String.mk (u.data.takeWhile (fun c => !(c = '?' || c = '#')))

def basenameOf (p : String) : String :=
  String.mk ((p.data.reverse.takeWhile (fun c => c ≠ '/')).reverse)

/-- `base.toLowerCase().endsWith(".gz")`. -/
def endsWithGzCI (s : String) : Bool :=
  match s.data.reverse with
  | z :: g :: dot :: _ => z.toLower == 'z' && g.toLower == 'g' && dot == '.'
  | _ => false

/-- `base && base.toLowerCase().endsWith(".gz") ? base : <default>`. -/
def urlGzBasename (u : String) : Option String :=
  let b := basenameOf (urlPathOf u)
  if b ≠ "" && endsWithGzCI b then some b else none

/-- One `for (const fileUrl of links)` iteration of the fetch-based
yochananof collector (part_000:125-234).  Inputs: current ledger, the
candidate URL, the response a fetch would produce, the storage-upload
outcome, the run date (`yyyy-mm-dd`), `Date.now()` and the SHA-256
primitive.  Output: the updated ledger and whether a network fetch was
performed. -/
def yohananofFetchHandleUrl (L : List LedgerRow) (fileUrl : String)
    (resp : FetchResponse) (uploadErr : Option String) (runDate : String)
    (nowMs : Nat) (hash : List Nat → String) : List LedgerRow × Bool :=
  if hasKey L "yochananof" fileUrl then (L, false)
  else if resp.ok = false then
    (insertRawFiles L
      { chain := "yochananof", store_id := none, file_url := fileUrl,
        storage_path := none, sha256 := none, fetched_at := none,
        status := "failed",
        error := some ("Download HTTP " ++ toString resp.httpStatus) }, true)
  else
    let gzSha := hash resp.body
    let filename :=
      match resp.contentDisposition.bind findCDFilename with
      | some fn => fn
      | none =>
        match urlGzBasename resp.finalUrl with
        | some b => b
        | none => "PriceFull_" ++ toString nowMs ++ ".gz"
    let storeId :=
      match extractStoreIdFromFilename filename with
      | some s => some s
      | none =>
        match extractStoreIdFromFilename resp.finalUrl with
        | some s => some s
        | none => extractStoreIdFromFilename fileUrl
    match storeId with
    | none =>
      (insertRawFiles L
        { chain := "yochananof", store_id := none, file_url := fileUrl,
          storage_path := none, sha256 := some gzSha, fetched_at := none,
          status := "skipped",
          error := some ("no storeId in filename: " ++ filename) }, true)
    | some sid =>
      let storagePath := "yochananof/" ++ runDate ++ "/" ++ sid ++ "/" ++ filename
      match uploadErr with
      | some m =>
        (insertRawFiles L
          { chain := "yochananof", store_id := some sid, file_url := fileUrl,
            storage_path := some storagePath, sha256 := some gzSha,
            fetched_at := none, status := "failed", error := some m }, true)
      | none =>
        (insertRawFiles L
          { chain := "yochananof", store_id := some sid, file_url := fileUrl,
            storage_path := some storagePath, sha256 := some gzSha,
            fetched_at := none, status := "downloaded", error := none }, true)

/-- One inner-loop iteration of `runShufersalCollector`
(part_000:390-501); identical control flow with chain `"shufersal"`, the
shufersal filename grammars and default filename `Price_<now>.gz`.
NOTE: this path performs no gzip-signature validation at all. -/
def shufersalHandleUrl (L : List LedgerRow) (fileUrl : String)
    (resp : FetchResponse) (uploadErr : Option String) (runDate : String)
    (nowMs : Nat) (hash : List Nat → String) : List LedgerRow × Bool :=
  if hasKey L "shufersal" fileUrl then (L, false)
  else if resp.ok = false then
    (insertRawFiles L
      { chain := "shufersal", store_id := none, file_url := fileUrl,
        storage_path := none, sha256 := none, fetched_at := none,
        status := "failed",
        error := some ("Download HTTP " ++ toString resp.httpStatus) }, true)
  else
    let gzSha := hash resp.body
    let filename :=
      match resp.contentDisposition.bind findCDFilename with
      | some fn => fn
      | none =>
        match urlGzBasename resp.finalUrl with
        | some b => b
        | none => "Price_" ++ toString nowMs ++ ".gz"
    let storeId :=
      match extractStoreIdShufersal filename with
      | some s => some s
      | none =>
        match extractStoreIdShufersal resp.finalUrl with
        | some s => some s
        | none => extractStoreIdShufersal fileUrl
    match storeId with
    | none =>
      (insertRawFiles L
        { chain := "shufersal", store_id := none, file_url := fileUrl,
          storage_path := none, sha256 := some gzSha, fetched_at := none,
          status := "skipped",
          error := some ("no storeId in filename: " ++ filename) }, true)
    | some sid =>
      let storagePath := "shufersal/" ++ runDate ++ "/" ++ sid ++ "/" ++ filename
      match uploadErr with
      | some m =>
        (insertRawFiles L
          { chain := "shufersal", store_id := some sid, file_url := fileUrl,
            storage_path := some storagePath, sha256 := some gzSha,
            fetched_at := none, status := "failed", error := some m }, true)
      | none =>
        (insertRawFiles L
          { chain := "shufersal", store_id := some sid, file_url := fileUrl,
            storage_path := some storagePath, sha256 := some gzSha,
            fetched_at := none, status := "downloaded", error := none }, true)

/-- `parsePriceFullFilenameFromUrl` (part_000:571-586): the anchored
`/^PriceFull(\d+)-(\d+)-(\d{12})\.gz$/i` on the URL's path basename.
Returns `(filename, chainId, storeId, date)`; `none` models the thrown
`Unexpected PriceFull filename format` (which aborts the run). -/
def parsePFBasename (l : List Char) : Option (List Char × List Char × List Char) :=
  match ciLit "pricefull".data l with
  | none => none
  | some r0 =>
    let d1 := countWhile isDigitC r0
    if d1 = 0 then none
    else
      match r0.drop d1 with
      | '-' :: r1 =>
        let d2 := countWhile isDigitC r1
        if d2 = 0 then none
        else
          match r1.drop d2 with
          | '-' :: r2 =>
            if countWhile isDigitC r2 = 12 then
              match ciLit ".gz".data (r2.drop 12) with
              | some [] => some (r0.take d1, r1.take d2, r2.take 12)
              | _ => none
            else none
          | _ => none
      | _ => none

def parsePriceFullFilenameFromUrl (url : String) :
    Option (String × String × String × String) :=
  let filename := basenameOf (urlPathOf url)
  match parsePFBasename filename.data with
  | none => none
  | some (chainId, storeId, ts) =>
    let date := String.mk (ts.take 4) ++ "-" ++ String.mk ((ts.drop 4).take 2)
      ++ "-" ++ String.mk ((ts.drop 6).take 2)
    some (filename, String.mk chainId, String.mk storeId, date)

/-- One URL iteration of the curl/playwright yohananof collector
(part_000:772-850).  The source re-downloads unconditionally ("always
re-download to avoid caching HTML as good"), so the returned flag — a
network fetch was performed — is always `true`; outer `none` models the
run-aborting filename-format throw. -/
def yohananofCurlStep (L : List LedgerRow) (url : String) (fileBuf : List Nat)
    (uploadErr : Option String) (fetchedAt : String) (hash : List Nat → String) :
    Option (List LedgerRow × Bool) :=
  match parsePriceFullFilenameFromUrl url with
  | none => none
  | some (filename, _, storeId, date) =>
    let storagePath := "yohananof/" ++ date ++ "/" ++ storeId ++ "/" ++ filename
    if isGzipMagic fileBuf = false then
      some (upsertRawFiles L
        { chain := "yohananof", store_id := some storeId, file_url := url,
          storage_path := some storagePath, sha256 := none,
          fetched_at := some fetchedAt, status := "failed",
          error := some "Download returned non-gzip content (likely HTML login/redirect)" }, true)
    else
      let sha := hash fileBuf
      match uploadErr with
      | some m =>
        some (upsertRawFiles L
          { chain := "yohananof", store_id := some storeId, file_url := url,
            storage_path := some storagePath, sha256 := some sha,
            fetched_at := some fetchedAt, status := "failed",
            error := some ("Storage upload failed: " ++ m) }, true)
      | none =>
        some (upsertRawFiles L
          { chain := "yohananof", store_id := some storeId, file_url := url,
            storage_path := some storagePath, sha256 := some sha,
            fetched_at := some fetchedAt, status := "downloaded",
            error := none }, true)

/-! ## Daily aggregator (src/core/supabase/aggregate_daily.ts:11-32)

The SQL recomputation, over an explicit list of `prices` rows.
Timestamps are seconds; a day is `ts / 86400` (`::date`); the window
condition is `coalesce(price_update_time, fetched_at) >= now() - '2 days'`,
abstracted by the window-start parameter. -/

structure AggRow where
  chain : String
  canonical_key : Option String
  price : ℚ
  price_update_time : Option Nat
  fetched_at : Nat
deriving DecidableEq

/-- `coalesce(price_update_time, fetched_at)`. -/
def effTs (r : AggRow) : Nat :=
  r.price_update_time.getD r.fetched_at

def dayOf (t : Nat) : Nat := t / 86400

structure DailyStat where
  avg_price : ℚ
  sample_count : Nat
  min_price : ℚ
  max_price : ℚ
deriving DecidableEq

/-- PostgreSQL `round(x::numeric, 2)`: half away from zero, at 2 decimals. -/
def round2 (q : ℚ) : ℚ :=
  (if 0 ≤ q then ((⌊q * 100 + 1/2⌋ : ℤ) : ℚ) else -((⌊-(q * 100) + 1/2⌋ : ℤ) : ℚ)) / 100

/-- The grouped SELECT of aggregate_daily.ts for one group
`(day, chain, canonical_key)`: rows with a non-null canonical key, in the
trailing window, on that day/chain/key; `none` when the group is empty
(no `product_stats_daily` row). -/
def aggregateDaily (rows : List AggRow) (winStart : Nat) (day : Nat)
    (chain : String) (key : String) : Option DailyStat :=
  let g := rows.filter (fun r =>
    r.canonical_key == some key && r.chain == chain &&
    decide (winStart ≤ effTs r) && dayOf (effTs r) == day)
  match g with
  | [] => none
  | r0 :: rest =>
    let ps := (r0 :: rest).map (fun r => r.price)
    some
      { avg_price := round2 (ps.sum / (ps.length : ℚ))
        sample_count := ps.length
        min_price := ps.foldl min r0.price
        max_price := ps.foldl max r0.price }

/-! ## Helper lemmas -/

theorem processItem_isWeighted (fid : String) (sc : Option String) (sid : String)
    (bik : Option ℚ) (it : XmlItem) (row : PriceRow)
    (hrow : processItem fid sc sid bik it = some row) :
    row.is_weighted = it.bIsWeighted.map (fun s => s == "1") := by
  unfold processItem at hrow
  cases hp : jsNumberOpt it.ItemPrice with
  | none => rw [hp] at hrow; exact absurd hrow (by simp)
  | some q =>
    rw [hp] at hrow
    simp only [] at hrow
    by_cases hname : cleanNameOf it = ""
    · rw [if_pos hname] at hrow; exact absurd hrow (by simp)
    · rw [if_neg hname] at hrow
      cases hc : truthyStr it.ItemCode with
      | none => rw [hc] at hrow; exact absurd hrow (by simp)
      | some code =>
        rw [hc] at hrow
        have := Option.some.inj hrow
        rw [← this]

theorem processItem_canonical (fid : String) (sc : Option String) (sid : String)
    (bik : Option ℚ) (it : XmlItem) (row : PriceRow)
    (hrow : processItem fid sc sid bik it = some row) :
    row.canonical_key =
      (if normalizeCanonical (cleanNameOf it) = "" then none
       else some (normalizeCanonical (cleanNameOf it))) := by
  unfold processItem at hrow
  cases hp : jsNumberOpt it.ItemPrice with
  | none => rw [hp] at hrow; exact absurd hrow (by simp)
  | some q =>
    rw [hp] at hrow
    simp only [] at hrow
    by_cases hname : cleanNameOf it = ""
    · rw [if_pos hname] at hrow; exact absurd hrow (by simp)
    · rw [if_neg hname] at hrow
      cases hc : truthyStr it.ItemCode with
      | none => rw [hc] at hrow; exact absurd hrow (by simp)
      | some code =>
        rw [hc] at hrow
        have := Option.some.inj hrow
        rw [← this]

/-! ## Claims C9 and C10 -/

/-- C9 (confirmed): for every item whose name normalizes to the empty
string after stripping, any price row the decoder builds for it stores
`canonical_key = null` (never the empty string) — parse_yohananof.ts:184,
`normalizeCanonical(cleanName) || null`. -/
theorem c9_empty_canonical_is_null (fid : String) (sc : Option String) (sid : String)
    (bik : Option ℚ) (it : XmlItem) (row : PriceRow)
    (hnorm : normalizeCanonical (cleanNameOf it) = "")
    (hrow : processItem fid sc sid bik it = some row) :
    row.canonical_key = none := by
  rw [processItem_canonical fid sc sid bik it row hrow, if_pos hnorm]

theorem c9_witness :
    normalizeCanonical (cleanNameOf ⟨some "100g", some "5", some "123", none, none, none, none, none, none⟩) = ""
    ∧ ∀ row, processItem "f" none "001" none
        ⟨some "100g", some "5", some "123", none, none, none, none, none, none⟩ = some row →
        row.canonical_key = none := by
  refine ⟨by decide, fun row hrow => ?_⟩
  exact c9_empty_canonical_is_null "f" none "001" none _ row (by decide) hrow

/-- C10 (confirmed): the stored `is_weighted` is `null` exactly when the
item's `bIsWeighted` field is absent; when present it is `true` exactly
when the string value is `"1"` and `false` otherwise —
parse_yohananof.ts:181. -/
theorem c10_is_weighted_tristate (fid : String) (sc : Option String) (sid : String)
    (bik : Option ℚ) (it : XmlItem) (row : PriceRow)
    (hrow : processItem fid sc sid bik it = some row) :
    (row.is_weighted = none ↔ it.bIsWeighted = none) ∧
    (∀ s, it.bIsWeighted = some s →
      ((row.is_weighted = some true ↔ s = "1") ∧ (s ≠ "1" → row.is_weighted = some false))) := by
  have hw := processItem_isWeighted fid sc sid bik it row hrow
  constructor
  · rw [hw]; cases it.bIsWeighted <;> simp
  · intro s hs
    rw [hw, hs]
    constructor
    · simp [beq_iff_eq]
    · intro hne; simp [beq_iff_eq, hne]

theorem c10_witness :
    (∀ row, processItem "f" none "001" none
        ⟨some "abc", some "5", some "123", none, none, none, none, some "1", none⟩ = some row →
        row.is_weighted = some true)
    ∧ (∀ row, processItem "f" none "001" none
        ⟨some "abc", some "5", some "123", none, none, none, none, some "0", none⟩ = some row →
        row.is_weighted = some false)
    ∧ (∀ row, processItem "f" none "001" none
        ⟨some "abc", some "5", some "123", none, none, none, none, none, none⟩ = some row →
        row.is_weighted = none) := by
  refine ⟨fun row hrow => ?_, fun row hrow => ?_, fun row hrow => ?_⟩
  · exact ((c10_is_weighted_tristate "f" none "001" none _ row hrow).2 "1" rfl).1.mpr rfl
  · exact ((c10_is_weighted_tristate "f" none "001" none _ row hrow).2 "0" rfl).2 (by decide)
  · exact (c10_is_weighted_tristate "f" none "001" none _ row hrow).1.mpr rfl

/-! ## Claim C8 -/

/-- C8 (confirmed): a group of price rows sharing `(day, chain,
canonical_key)` with prices {10, 12, 11} inside the trailing window
aggregates to avg 11.00, min 10, max 12, count 3; a row with a null
canonical key is excluded — aggregate_daily.ts:11-32. -/
theorem c8_daily_aggregation (chain key : String) (w t1 t2 t3 d : Nat) (rn : AggRow)
    (h1 : w ≤ t1) (h2 : w ≤ t2) (h3 : w ≤ t3)
    (e1 : t1 / 86400 = d) (e2 : t2 / 86400 = d) (e3 : t3 / 86400 = d)
    (hrn : rn.canonical_key = none) :
    aggregateDaily
      [⟨chain, some key, 10, some t1, 0⟩, ⟨chain, some key, 12, some t2, 0⟩,
       ⟨chain, some key, 11, some t3, 0⟩, rn] w d chain key
      = some ⟨11, 3, 10, 12⟩ := by
  have hfilter :
      ([⟨chain, some key, 10, some t1, 0⟩, ⟨chain, some key, 12, some t2, 0⟩,
        ⟨chain, some key, 11, some t3, 0⟩, rn] : List AggRow).filter (fun r =>
          r.canonical_key == some key && r.chain == chain &&
          decide (w ≤ effTs r) && dayOf (effTs r) == d)
      = [⟨chain, some key, 10, some t1, 0⟩, ⟨chain, some key, 12, some t2, 0⟩,
         ⟨chain, some key, 11, some t3, 0⟩] := by
    simp [List.filter, effTs, dayOf, h1, h2, h3, e1, e2, e3, hrn]
  unfold aggregateDaily
  rw [hfilter]
  simp only [List.map, List.sum_cons, List.sum_nil, List.length]
  norm_num [round2, min_def, max_def]

theorem c8_witness :
    aggregateDaily
      [⟨"yohananof", some "milk", 10, some 100000, 0⟩,
       ⟨"yohananof", some "milk", 12, some 100000, 0⟩,
       ⟨"yohananof", some "milk", 11, some 100000, 0⟩,
       ⟨"yohananof", none, 99, some 100000, 0⟩] 0 1 "yohananof" "milk"
      = some ⟨11, 3, 10, 12⟩ :=
  c8_daily_aggregation "yohananof" "milk" 0 100000 100000 100000 1
    ⟨"yohananof", none, 99, some 100000, 0⟩
    (by decide) (by decide) (by decide) (by decide) (by decide) (by decide) rfl

/-! ## Claim C4 — concrete inputs -/

def c4File : RawFile :=
  ⟨"f4", some "yohananof/2026-10-11/009/PriceFull7290803800003-009-202601140501.gz", some "9"⟩

def c4Root : XmlRoot :=
  { StoreID := some "9",
    Items := [⟨some "Milk", some "5", some "123", none, none, none, none, none, none⟩] }

def c4Be : Nat → Option String :=
  fun i => if i = 0 then some "duplicate key value violates unique constraint" else none

/-- C4 (code_bug): when a 500-row batch upsert fails, the decoder's error
branch does write `status = "failed"` with the underlying message, but its
`continue` targets the inner batch loop, so the unconditional
`update({ status: "parsed", error: null })` after the loop
(parse_yohananof.ts:227) still runs and overwrites it: on a file with one
valid item whose single batch fails, the final ledger status is `parsed`
with a null error — not `failed` as the claim states. -/
theorem c4_batch_failure_overwritten_by_parsed :
    (processDoc c4File (some c4Root) c4Be).trace
      = [("failed", some "duplicate key value violates unique constraint"), ("parsed", none)]
    ∧ finalStatus (processDoc c4File (some c4Root) c4Be) = some "parsed"
    ∧ finalError (processDoc c4File (some c4Root) c4Be) = some none := by
  refine ⟨?_, ?_, ?_⟩ <;> decide

/-! ## Claim C1 — concrete inputs -/

def c1File : RawFile :=
  ⟨"f1", some "yohananof/2026-10-11/009/PriceFull7290803800003-009-202601140501.gz", some "9"⟩

/-- A non-empty item list in which the single item is rejected by the
row-level filter (its name is empty after trimming). -/
def c1Root : XmlRoot :=
  { StoreID := some "9",
    Items := [⟨some "", some "5.9", some "123", none, none, none, none, none, none⟩] }

/-- C1 (counterexample): a file whose XML item list is non-empty but in
which every item is rejected by row-level filtering is NOT marked failed
with "no items": the `!items.length` check (parse_yohananof.ts:133) runs
before filtering, so the decoder falls through to the final
`status: "parsed"` update with zero rows written. -/
theorem c1_counterexample :
    c1Root.Items ≠ [] ∧ (∀ it ∈ c1Root.Items, rowRejected it = true)
    ∧ processDoc c1File (some c1Root) (fun _ => none) = ⟨[("parsed", none)], some "009", []⟩
    ∧ finalStatus (processDoc c1File (some c1Root) (fun _ => none)) ≠ some "failed" := by
  refine ⟨by decide, by decide, by decide, by decide⟩

theorem processItem_none_of_rejected (fid : String) (sc : Option String) (sid : String)
    (bik : Option ℚ) (it : XmlItem) (h : rowRejected it = true) :
    processItem fid sc sid bik it = none := by
  unfold rowRejected at h
  unfold processItem
  cases hp : jsNumberOpt it.ItemPrice with
  | none => rfl
  | some q =>
    simp only []
    rcases Bool.or_eq_true _ _ |>.mp h with h1 | hcode
    · rcases Bool.or_eq_true _ _ |>.mp h1 with hname | hprice
      · rw [if_pos (by simpa [beq_iff_eq] using hname)]
      · rw [hp] at hprice; exact absurd hprice (by simp)
    · by_cases hname : cleanNameOf it = ""
      · rw [if_pos hname]
      · rw [if_neg hname]
        rw [Option.isNone_iff_eq_none.mp hcode]

/-- C1 (corrected): the "no items" failure (`No Items in XML`,
parse_yohananof.ts:133-137) fires exactly when the XML item list itself is
empty; when the list is non-empty but every item is rejected by the
row-level filter, zero price rows are written and the file is nevertheless
marked `parsed` (never failed). -/
theorem c1_all_rows_rejected_marks_parsed (f : RawFile) (root : XmlRoot)
    (be : Nat → Option String) (sid : String)
    (hsid : storeIdNormOf f root = some sid) :
    (root.Items = [] →
       processDoc f (some root) be
         = ⟨[("failed", some "No Items in XML")], some sid, []⟩)
    ∧ ((∀ it ∈ root.Items, rowRejected it = true) → root.Items ≠ [] →
       processDoc f (some root) be = ⟨[("parsed", none)], some sid, []⟩) := by
  constructor
  · intro hempty
    unfold processDoc
    simp only []
    rw [hsid]
    simp only [if_pos hempty]
  · intro hall hne
    unfold processDoc
    simp only []
    rw [hsid]
    simp only [if_neg hne]
    have hrows : root.Items.filterMap
        (processItem f.id root.SubChainID sid ((root.BikoretNo.map jsNumber).join)) = [] :=
      List.filterMap_eq_nil_iff.mpr
        (fun it hit => processItem_none_of_rejected _ _ _ _ it (hall it hit))
    rw [hrows]
    rfl

theorem c1_witness :
    storeIdNormOf c1File c1Root = some "009"
    ∧ processDoc c1File (some c1Root) (fun _ => some "never reached")
        = ⟨[("parsed", none)], some "009", []⟩ :=
  ⟨by decide,
   (c1_all_rows_rejected_marks_parsed c1File c1Root _ "009" (by decide)).2
     (by decide) (by decide)⟩

/-! ## Claim C2 -/

def c2Url : String :=
  "https://x.blob.core.windows.net/price/PriceFull7290027600007-001-202601140501.gz"

/-- A successful HTTP response whose body is HTML (`<html…`), not gzip. -/
def c2Resp : FetchResponse :=
  { ok := true, httpStatus := 200, body := [60, 104, 116, 109, 108],
    contentDisposition := none, finalUrl := c2Url }

/-- C2 (counterexample): `runShufersalCollector` performs no gzip
signature check at all — a fetched body whose first two bytes are not
`1F 8B` (here an HTML page) is hashed, uploaded and recorded with status
`downloaded`, contradicting "a non-gzip body is never recorded with
status downloaded". -/
theorem c2_counterexample :
    c2Resp.body.take 2 ≠ [0x1f, 0x8b]
    ∧ (shufersalHandleUrl [] c2Url c2Resp none "2026-10-11" 0 (fun _ => "cafe")).1.map
        (fun r => r.status) = ["downloaded"] := by
  refine ⟨by decide, by decide⟩

theorem isGzipMagic_eq_false {buf : List Nat} (h : buf.take 2 ≠ [0x1f, 0x8b]) :
    isGzipMagic buf = false := by
  match buf with
  | [] => rfl
  | [_] => rfl
  | [_, _] => rfl
  | b0 :: b1 :: b2 :: rest =>
    unfold isGzipMagic
    by_cases h0 : b0 = 0x1f
    · by_cases h1 : b1 = 0x8b
      · exact absurd (by simp [List.take, h0, h1]) h
      · simp [h1]
    · simp [h0]

/-- C2 (corrected): where the gzip signature is checked — the decoder
(parse_yohananof.ts:81-91) and the curl-based collector
(part_000:792-809) — a body whose first two bytes are not `1F 8B` is
recorded `failed` and never parsed into price rows; but the error field
carries a fixed message (the first-bytes diagnostic is only logged), and
the fetch-based shufersal collector performs no such check. -/
theorem c2_nongzip_failed_where_checked :
    (∀ (f : RawFile) (buf : List Nat) (doc : Option XmlRoot) (be : Nat → Option String),
       f.storage_path ≠ none → buf.take 2 ≠ [0x1f, 0x8b] →
       parseFile f none buf doc be
         = ⟨[("failed", some "Not a gzip file (magic bytes missing)")], none, []⟩)
    ∧ (∀ (L : List LedgerRow) (url : String) (buf : List Nat) (upErr : Option String)
         (fa : String) (hash : List Nat → String) (R : List LedgerRow × Bool),
       buf.take 2 ≠ [0x1f, 0x8b] →
       yohananofCurlStep L url buf upErr fa hash = some R →
       ∃ row : LedgerRow, R = (upsertRawFiles L row, true) ∧ row.status = "failed"
         ∧ row.error = some "Download returned non-gzip content (likely HTML login/redirect)") := by
  constructor
  · intro f buf doc be hpath hsig
    unfold parseFile
    rw [if_neg hpath]
    simp only []
    rw [isGzipMagic_eq_false hsig]
    simp only [if_neg (by simp : ¬(false = true))]
  · intro L url buf upErr fa hash R hsig hstep
    unfold yohananofCurlStep at hstep
    cases hparse : parsePriceFullFilenameFromUrl url with
    | none => rw [hparse] at hstep; exact absurd hstep (by simp)
    | some t =>
      obtain ⟨fn, cid, sidd, date⟩ := t
      rw [hparse] at hstep
      simp only [isGzipMagic_eq_false hsig, if_pos rfl] at hstep
      exact ⟨_, (Option.some.inj hstep).symm, rfl, rfl⟩

theorem c2_witness :
    parseFile c1File none [60, 104, 116, 109, 108] (some c1Root) (fun _ => none)
      = ⟨[("failed", some "Not a gzip file (magic bytes missing)")], none, []⟩
    ∧ ∀ R, yohananofCurlStep [] "https://url.publishedprices.co.il/file/d/PriceFull7290803800003-016-202601140010.gz"
        [60, 104] none "2026-10-11T00:00:00.000Z" (fun _ => "aa") = some R →
        ∃ row : LedgerRow, R = (upsertRawFiles [] row, true) ∧ row.status = "failed"
          ∧ row.error = some "Download returned non-gzip content (likely HTML login/redirect)" :=
  ⟨c2_nongzip_failed_where_checked.1 c1File [60, 104, 116, 109, 108] (some c1Root)
     (fun _ => none) (by decide) (by decide),
   fun R hstep => c2_nongzip_failed_where_checked.2 [] _ [60, 104] none _ _ R (by decide) hstep⟩

/-! ## Claims C3 and C5 -/

def c3Url : String :=
  "https://url.publishedprices.co.il/file/d/PriceFull7290803800003-009-202601140501.gz"

/-- A ledger already holding a failed attempt for `(yochananof, c3Url)`. -/
def c3Ledger : List LedgerRow :=
  [{ chain := "yochananof", store_id := none, file_url := c3Url,
     storage_path := none, sha256 := none, fetched_at := none,
     status := "failed", error := some "Download HTTP 500" }]

/-- A retry response that would now succeed. -/
def c3Row : LedgerRow :=
  { chain := "yochananof", store_id := none, file_url := c3Url,
    storage_path := none, sha256 := none, fetched_at := none,
    status := "failed", error := some "Download HTTP 500" }

def c3Resp : FetchResponse :=
  { ok := true, httpStatus := 200, body := [31, 139, 8],
    contentDisposition := none, finalUrl := c3Url }

/-- C3 (counterexample): in the fetch-based yochananof collector a
retried attempt does NOT overwrite the existing `(chain, file_url)`
record: the dedup check (part_000:128-137) finds the old record — here a
failed one — and skips, leaving the ledger unchanged (the outcome writes
themselves are plain inserts, not upserts). -/
theorem c3_counterexample :
    countKey c3Ledger "yochananof" c3Url = 1
    ∧ c3Ledger.map (fun r => r.status) = ["failed"]
    ∧ yohananofFetchHandleUrl c3Ledger c3Url c3Resp none "2026-10-11" 0 (fun _ => "aa")
        = (c3Ledger, false) := by
  refine ⟨by decide, by decide, by decide⟩

theorem countKey_map_overwrite (c u : String) (row : LedgerRow)
    (hrow : keyMatch c u row = true) :
    ∀ L : List LedgerRow,
      countKey (L.map (fun r => if keyMatch c u r then row else r)) c u = countKey L c u := by
  intro L
  induction L with
  | nil => rfl
  | cons r rs ih =>
    by_cases hr : keyMatch c u r = true
    · simp only [List.map, countKey, List.filter, if_pos hr, hr, hrow]
      simpa [countKey, List.filter, hrow] using ih
    · simp only [List.map, countKey, List.filter, if_neg hr]
      rw [Bool.not_eq_true] at hr
      simp only [hr]
      exact ih

theorem countKey_pos_of_hasKey {L : List LedgerRow} {c u : String}
    (h : hasKey L c u = true) : 1 ≤ countKey L c u := by
  obtain ⟨r, hr, hkr⟩ := List.any_eq_true.mp h
  have : r ∈ L.filter (keyMatch c u) := List.mem_filter.mpr ⟨hr, hkr⟩
  have := List.length_pos.mpr (List.ne_nil_of_mem this)
  exact this

theorem countKey_zero_of_not_hasKey {L : List LedgerRow} {c u : String}
    (h : hasKey L c u = false) : countKey L c u = 0 := by
  unfold countKey
  rw [List.length_eq_zero]
  rw [List.filter_eq_nil_iff]
  intro a ha
  have := List.any_eq_false.mp h
  simpa using this a ha

/-- C3 (corrected): `upsertRawFile` (part_000:613-646) is an idempotent
upsert keyed by `(chain, file_url)`: starting from a ledger with at most
one record for the key, the result has exactly one, holding the new row —
overwrite, never a duplicate.  The fetch-based collectors' outcome writes
are plain inserts guarded by a prior existence check, so a retried
attempt performs no write at all: the existing record is left unchanged
(not overwritten) and no second record is created. -/
theorem c3_upsert_semantics :
    (∀ (L : List LedgerRow) (row : LedgerRow),
       countKey L row.chain row.file_url ≤ 1 →
       countKey (upsertRawFiles L row) row.chain row.file_url = 1
       ∧ row ∈ upsertRawFiles L row)
    ∧ (∀ (L : List LedgerRow) (u : String) (resp : FetchResponse)
         (up : Option String) (rd : String) (nm : Nat) (hash : List Nat → String),
       hasKey L "yochananof" u = true →
       yohananofFetchHandleUrl L u resp up rd nm hash = (L, false)) := by
  constructor
  · intro L row hle
    have hself : keyMatch row.chain row.file_url row = true := by simp [keyMatch]
    unfold upsertRawFiles
    by_cases hk : hasKey L row.chain row.file_url = true
    · rw [if_pos hk]
      constructor
      · rw [countKey_map_overwrite row.chain row.file_url row hself L]
        exact le_antisymm hle (countKey_pos_of_hasKey hk)
      · obtain ⟨r, hr, hkr⟩ := List.any_eq_true.mp hk
        exact List.mem_map.mpr ⟨r, hr, by rw [if_pos hkr]⟩
    · rw [Bool.not_eq_true] at hk
      rw [if_neg (by simp [hk])]
      constructor
      · unfold countKey
        rw [List.filter_append]
        simp [countKey_zero_of_not_hasKey hk, List.filter, hself,
          List.length_eq_zero.mp (countKey_zero_of_not_hasKey hk)]
      · simp
  · intro L u resp up rd nm hash h
    unfold yohananofFetchHandleUrl
    rw [if_pos h]

theorem c3_witness :
    countKey [] "yochananof" c3Url ≤ 1
    ∧ countKey (upsertRawFiles [] c3Row) "yochananof" c3Url = 1
    ∧ hasKey c3Ledger "yochananof" c3Url = true
    ∧ yohananofFetchHandleUrl c3Ledger c3Url c3Resp none "2026-10-11" 0 (fun _ => "aa")
        = (c3Ledger, false) := by
  refine ⟨by decide, ?_, by decide, ?_⟩
  · exact (c3_upsert_semantics.1 [] c3Row (by decide)).1
  · exact c3_upsert_semantics.2 c3Ledger c3Url c3Resp none "2026-10-11" 0
      (fun _ => "aa") (by decide)

def c5Url : String :=
  "https://url.publishedprices.co.il/file/d/PriceFull7290803800003-016-202601140010.gz"

/-- A ledger already holding a successful download for `(chain, c5Url)`. -/
def c5Ledger : List LedgerRow :=
  [{ chain := "yohananof", store_id := some "016", file_url := c5Url,
     storage_path := some "yohananof/2026-01-14/016/PriceFull7290803800003-016-202601140010.gz",
     sha256 := some "aaa", fetched_at := some "2026-01-01T00:00:00.000Z",
     status := "downloaded", error := none }]

/-- C5 (counterexample): the curl/playwright yohananof collector never
consults the ledger before fetching — it re-downloads unconditionally
(part_000:780-781) and upserts, so for a URL whose record already exists
a fetch IS performed and the existing record is overwritten (here its
`sha256`/`fetched_at` change). -/
theorem c5_counterexample :
    hasKey c5Ledger "yohananof" c5Url = true
    ∧ (yohananofCurlStep c5Ledger c5Url [31, 139, 8] none "2026-02-01T00:00:00.000Z"
        (fun _ => "bbb")).map (fun p => p.2) = some true
    ∧ (yohananofCurlStep c5Ledger c5Url [31, 139, 8] none "2026-02-01T00:00:00.000Z"
        (fun _ => "bbb")).map (fun p => p.1) ≠ some c5Ledger := by
  refine ⟨by decide, by decide, by decide⟩

/-- C5 (corrected): the fetch-based collectors (basic-auth yochananof,
part_000:128-137, and shufersal, part_000:393-402) do honour the claim:
for a candidate URL whose `(chain, file_url)` already has a ledger
record, the iteration performs no network fetch and returns the ledger
unchanged.  The curl-based collector does not (see the counterexample). -/
theorem c5_dedup_skip_fetch_collectors :
    (∀ (L : List LedgerRow) (u : String) (resp : FetchResponse)
       (up : Option String) (rd : String) (nm : Nat) (hash : List Nat → String),
       hasKey L "yochananof" u = true →
       yohananofFetchHandleUrl L u resp up rd nm hash = (L, false))
    ∧ (∀ (L : List LedgerRow) (u : String) (resp : FetchResponse)
         (up : Option String) (rd : String) (nm : Nat) (hash : List Nat → String),
       hasKey L "shufersal" u = true →
       shufersalHandleUrl L u resp up rd nm hash = (L, false)) := by
  constructor
  · intro L u resp up rd nm hash h
    unfold yohananofFetchHandleUrl
    rw [if_pos h]
  · intro L u resp up rd nm hash h
    unfold shufersalHandleUrl
    rw [if_pos h]

def c5ShLedger : List LedgerRow :=
  [{ chain := "shufersal", store_id := some "001", file_url := c2Url,
     storage_path := none, sha256 := some "dd", fetched_at := none,
     status := "downloaded", error := none }]

theorem c5_witness :
    hasKey c3Ledger "yochananof" c3Url = true
    ∧ yohananofFetchHandleUrl c3Ledger c3Url c3Resp none "2026-01-02" 7 (fun _ => "x")
        = (c3Ledger, false)
    ∧ hasKey c5ShLedger "shufersal" c2Url = true
    ∧ shufersalHandleUrl c5ShLedger c2Url c2Resp none "2026-01-02" 7 (fun _ => "x")
        = (c5ShLedger, false) :=
  ⟨by decide,
   c5_dedup_skip_fetch_collectors.1 c3Ledger c3Url c3Resp none "2026-01-02" 7
     (fun _ => "x") (by decide),
   by decide,
   c5_dedup_skip_fetch_collectors.2 c5ShLedger c2Url c2Resp none "2026-01-02" 7
     (fun _ => "x") (by decide)⟩

/-! ## Claim C6 -/

/-- C6 (counterexample): the store-digit capture is `[0-9]{1,4}` and
`padStart(3, "0")` only pads, never truncates — a filename carrying a
4-digit store field resolves to a 4-character id, not a 3-digit string. -/
theorem c6_counterexample :
    extractStoreIdFromFilename "PriceFull7290803800003-1234-202601140501.gz" = some "1234"
    ∧ (extractStoreIdFromFilename "PriceFull7290803800003-1234-202601140501.gz").map
        (fun r => r.length) ≠ some 3 := by
  refine ⟨by decide, by decide⟩

theorem padStart3_length (s : String) :
    (padStart3 s).length = if 3 ≤ s.length then s.length else 3 := by
  unfold padStart3
  split
  · rfl
  · rename_i hlt
    show (List.replicate (3 - s.length) '0' ++ s.data).length = 3
    rw [List.length_append, List.length_replicate]
    have hds : s.data.length = s.length := rfl
    omega

theorem capStoreDash_length {l : List Char} {cap : String} {r : List Char}
    (h : capStoreDash l = some (cap, r)) : 1 ≤ cap.length ∧ cap.length ≤ 4 := by
  unfold capStoreDash at h
  simp only [] at h
  split at h
  · exact absurd h (by simp)
  · rename_i hcond
    split at h
    · rename_i r2 hdrop
      injection h with hp
      injection hp with hcap hr2
      have hlen : countWhile isDigitC l < l.length := by
        have hd := congrArg List.length hdrop
        rw [List.length_drop] at hd
        simp only [List.length_cons] at hd
        omega
      have hcl : cap.length = countWhile isDigitC l := by
        rw [← hcap]
        show (List.take (countWhile isDigitC l) l).length = _
        rw [List.length_take]
        omega
      rw [hcl]
      simp only [Bool.or_eq_true, decide_eq_true_eq, not_or] at hcond
      omega
    · exact absurd h (by simp)

theorem capThen_length {cond : List Char → Bool} {l : List Char} {cap : String}
    (h : capThen cond l = some cap) : 1 ≤ cap.length ∧ cap.length ≤ 4 := by
  unfold capThen at h
  split at h
  · rename_i cap2 r2 hcs
    split at h
    · exact Option.some.inj h ▸ capStoreDash_length hcs
    · exact absurd h (by simp)
  · exact absurd h (by simp)

theorem tryYoPat1_length {l : List Char} {cap : String} (h : tryYoPat1 l = some cap) :
    1 ≤ cap.length ∧ cap.length ≤ 4 := by
  obtain ⟨r0, _, h⟩ := Option.bind_eq_some.mp h
  obtain ⟨r1, _, h⟩ := Option.bind_eq_some.mp h
  obtain ⟨r2, _, h⟩ := Option.bind_eq_some.mp h
  exact capThen_length h

theorem tryYoPat2_length {l : List Char} {cap : String} (h : tryYoPat2 l = some cap) :
    1 ≤ cap.length ∧ cap.length ≤ 4 := by
  obtain ⟨r0, _, h⟩ := Option.bind_eq_some.mp h
  obtain ⟨r1, _, h⟩ := Option.bind_eq_some.mp h
  exact capThen_length h

theorem tryShPat1_length {l : List Char} {cap : String} (h : tryShPat1 l = some cap) :
    1 ≤ cap.length ∧ cap.length ≤ 4 := by
  obtain ⟨r0, _, h⟩ := Option.bind_eq_some.mp h
  obtain ⟨r1, _, h⟩ := Option.bind_eq_some.mp h
  obtain ⟨r2, _, h⟩ := Option.bind_eq_some.mp h
  exact capThen_length h

theorem tryShPat2_length {l : List Char} {cap : String} (h : tryShPat2 l = some cap) :
    1 ≤ cap.length ∧ cap.length ≤ 4 := by
  obtain ⟨r0, _, h⟩ := Option.bind_eq_some.mp h
  obtain ⟨r1, _, h⟩ := Option.bind_eq_some.mp h
  exact capThen_length h

theorem tryShPat3_length {l : List Char} {cap : String} (h : tryShPat3 l = some cap) :
    1 ≤ cap.length ∧ cap.length ≤ 4 := by
  obtain ⟨r0, _, h⟩ := Option.bind_eq_some.mp h
  obtain ⟨r1, _, h⟩ := Option.bind_eq_some.mp h
  obtain ⟨r2, _, h⟩ := Option.bind_eq_some.mp h
  exact capThen_length h

theorem scanFor_some {tryM : List Char → Option String} :
    ∀ {l : List Char} {c : String}, scanFor tryM l = some c → ∃ l2, tryM l2 = some c := by
  intro l
  induction l with
  | nil => intro c h; exact absurd h (by simp [scanFor])
  | cons a as ih =>
    intro c h
    unfold scanFor at h
    cases ht : tryM (a :: as) with
    | some cap => rw [ht] at h; exact ⟨a :: as, by rw [ht]; exact h⟩
    | none => rw [ht] at h; exact ih h

theorem padded_length_bounds {cap r : String} (hb : 1 ≤ cap.length ∧ cap.length ≤ 4)
    (hr : r = padStart3 cap) : 3 ≤ r.length ∧ r.length ≤ 4 := by
  rw [hr, padStart3_length]
  split <;> omega

/-- C6 (corrected): resolving a store id from a matching filename/URL
left-zero-pads the captured digits to width 3, so the result has AT LEAST
3 characters (`'PriceFull7290803800003-009-202601140501.gz'` resolves to
`'009'`), but a 4-digit capture is returned unpadded with length 4; for
every input matching no grammar the resolvers return `none`, never a
guessed id. -/
theorem c6_store_id_resolution :
    extractStoreIdFromFilename "PriceFull7290803800003-009-202601140501.gz" = some "009"
    ∧ extractStoreIdFromFilename "PriceFull7290803800003-009.gz" = none
    ∧ (∀ s r, extractStoreIdFromFilename s = some r → 3 ≤ r.length ∧ r.length ≤ 4)
    ∧ (∀ s r, extractStoreIdShufersal s = some r → 3 ≤ r.length ∧ r.length ≤ 4) := by
  refine ⟨by decide, by decide, ?_, ?_⟩
  · intro s r h
    unfold extractStoreIdFromFilename at h
    cases h1 : scanFor tryYoPat1 s.data with
    | some c =>
      rw [h1] at h
      obtain ⟨l2, hl2⟩ := scanFor_some h1
      exact padded_length_bounds (tryYoPat1_length hl2) (Option.some.inj h).symm
    | none =>
      rw [h1] at h
      cases h2 : scanFor tryYoPat2 s.data with
      | some c =>
        rw [h2] at h
        obtain ⟨l2, hl2⟩ := scanFor_some h2
        exact padded_length_bounds (tryYoPat2_length hl2) (Option.some.inj h).symm
      | none => rw [h2] at h; exact absurd h (by simp)
  · intro s r h
    unfold extractStoreIdShufersal at h
    cases h1 : scanFor tryShPat1 s.data with
    | some c =>
      rw [h1] at h
      obtain ⟨l2, hl2⟩ := scanFor_some h1
      exact padded_length_bounds (tryShPat1_length hl2) (Option.some.inj h).symm
    | none =>
      rw [h1] at h
      cases h2 : scanFor tryShPat2 s.data with
      | some c =>
        rw [h2] at h
        obtain ⟨l2, hl2⟩ := scanFor_some h2
        exact padded_length_bounds (tryShPat2_length hl2) (Option.some.inj h).symm
      | none =>
        rw [h2] at h
        cases h3 : scanFor tryShPat3 s.data with
        | some c =>
          rw [h3] at h
          obtain ⟨l2, hl2⟩ := scanFor_some h3
          exact padded_length_bounds (tryShPat3_length hl2) (Option.some.inj h).symm
        | none =>
          rw [h3] at h
          cases h4 : scanFor tryYoPat2 s.data with
          | some c =>
            rw [h4] at h
            obtain ⟨l2, hl2⟩ := scanFor_some h4
            exact padded_length_bounds (tryYoPat2_length hl2) (Option.some.inj h).symm
          | none => rw [h4] at h; exact absurd h (by simp)

theorem c6_witness :
    extractStoreIdFromFilename "PriceFull7290803800003-009-202601140501.gz" = some "009"
    ∧ 3 ≤ (String.length "009") ∧ (String.length "009") ≤ 4 := by
  refine ⟨c6_store_id_resolution.1, ?_⟩
  exact c6_store_id_resolution.2.2.1 "PriceFull7290803800003-009-202601140501.gz" "009"
    c6_store_id_resolution.1

/-! ## Claim C7 -/

/-- C7 (counterexample): `normalizeCanonical` is not idempotent — bracket
removal can create a fresh number+unit adjacency that only a second pass
strips: `normalizeCanonical "5(g)" = "5g"` while
`normalizeCanonical "5g" = ""`. -/
theorem c7_counterexample :
    normalizeCanonical "5(g)" = "5g"
    ∧ normalizeCanonical (normalizeCanonical "5(g)") = ""
    ∧ normalizeCanonical (normalizeCanonical "5(g)") ≠ normalizeCanonical "5(g)" := by
  refine ⟨by decide, by decide, by decide⟩

theorem countWhile_eq_zero {p : Char → Bool} {l : List Char}
    (h : ∀ c ∈ l, p c = false) : countWhile p l = 0 := by
  cases l with
  | nil => rfl
  | cons c cs => simp [countWhile, h c (List.mem_cons_self c cs)]

theorem tryUnitTok_none {l : List Char} (h : ∀ c ∈ l, isDigitC c = false) :
    tryUnitTok l = none := by
  unfold tryUnitTok
  simp [countWhile_eq_zero h]

theorem tryPct_none {l : List Char} (h : ∀ c ∈ l, isDigitC c = false) :
    tryPct l = none := by
  unfold tryPct
  simp [countWhile_eq_zero h]

theorem tryMul_none {l : List Char} (h : ∀ c ∈ l, isDigitC c = false) :
    tryMul l = none := by
  unfold tryMul
  simp only []
  cases hd : l.drop (countWhile isWsC l) with
  | nil => rfl
  | cons c rest =>
    by_cases hm : isMulChar c = true
    · have hsub : ∀ x ∈ rest.drop (countWhile isWsC rest), isDigitC x = false := by
        intro x hx
        apply h
        have h1 : x ∈ rest := List.drop_subset _ rest hx
        have h2 : x ∈ c :: rest := List.mem_cons_of_mem c h1
        rw [← hd] at h2
        exact List.drop_subset _ l h2
      simp [hm, countWhile_eq_zero hsub]
    · simp [hm]

theorem replaceScanAux_id (tryM : List Char → Option Nat)
    (Hf : ∀ l2 : List Char, (∀ c ∈ l2, isDigitC c = false) → tryM l2 = none) :
    ∀ l : List Char, (∀ c ∈ l, isDigitC c = false) → replaceScanAux tryM 0 l = l := by
  intro l
  induction l with
  | nil => intro _; rfl
  | cons c cs ih =>
    intro h
    unfold replaceScanAux
    rw [Hf (c :: cs) h]
    exact congrArg (c :: ·) (ih (fun x hx => h x (List.mem_cons_of_mem c hx)))

theorem stripUnits_id {l : List Char} (h : ∀ c ∈ l, isDigitC c = false) :
    stripUnits l = l :=
  replaceScanAux_id tryUnitTok (fun _ h2 => tryUnitTok_none h2) l h

theorem stripMul_id {l : List Char} (h : ∀ c ∈ l, isDigitC c = false) :
    stripMul l = l :=
  replaceScanAux_id tryMul (fun _ h2 => tryMul_none h2) l h

theorem stripPct_id {l : List Char} (h : ∀ c ∈ l, isDigitC c = false) :
    stripPct l = l :=
  replaceScanAux_id tryPct (fun _ h2 => tryPct_none h2) l h

/-- The whitespace normal form `collapseWs` establishes: every whitespace
character is a plain space, and no two whitespace characters are
adjacent. -/
def WsSep (a b : Char) : Prop := ¬(isWsC a = true ∧ isWsC b = true)

theorem collapseWs_singleton_ws {a : Char} (ha : isWsC a = true) :
    collapseWs [a] = [' '] := by
  unfold collapseWs
  simp [ha]

theorem collapseWs_cons_ws_ws {a b : Char} {bs : List Char}
    (ha : isWsC a = true) (hb : isWsC b = true) :
    collapseWs (a :: b :: bs) = collapseWs (b :: bs) := by
  conv_lhs => unfold collapseWs
  simp [ha, hb]

theorem collapseWs_cons_ws_nonws {a b : Char} {bs : List Char}
    (ha : isWsC a = true) (hb : isWsC b = false) :
    collapseWs (a :: b :: bs) = ' ' :: collapseWs (b :: bs) := by
  conv_lhs => unfold collapseWs
  simp [ha, hb]

theorem collapseWs_cons_not_ws {a : Char} {as : List Char} (ha : isWsC a = false) :
    collapseWs (a :: as) = a :: collapseWs as := by
  conv_lhs => unfold collapseWs
  simp [ha]

theorem mem_collapseWs {c : Char} :
    ∀ {l : List Char}, c ∈ collapseWs l → c = ' ' ∨ (c ∈ l ∧ isWsC c = false) := by
  intro l
  induction l with
  | nil => intro h; simp [collapseWs] at h
  | cons a as ih =>
    intro h
    by_cases ha : isWsC a = true
    · cases as with
      | nil =>
        rw [collapseWs_singleton_ws ha] at h
        simp at h
        exact Or.inl h
      | cons b bs =>
        by_cases hb : isWsC b = true
        · rw [collapseWs_cons_ws_ws ha hb] at h
          rcases ih h with h1 | ⟨h2, h3⟩
          · exact Or.inl h1
          · exact Or.inr ⟨List.mem_cons_of_mem a h2, h3⟩
        · rw [collapseWs_cons_ws_nonws ha (Bool.not_eq_true _ |>.mp hb)] at h
          rcases List.mem_cons.mp h with rfl | h'
          · exact Or.inl rfl
          · rcases ih h' with h1 | ⟨h2, h3⟩
            · exact Or.inl h1
            · exact Or.inr ⟨List.mem_cons_of_mem a h2, h3⟩
    · rw [collapseWs_cons_not_ws (Bool.not_eq_true _ |>.mp ha)] at h
      rcases List.mem_cons.mp h with rfl | h'
      · exact Or.inr ⟨List.mem_cons_self _ _, Bool.not_eq_true _ |>.mp ha⟩
      · rcases ih h' with h1 | ⟨h2, h3⟩
        · exact Or.inl h1
        · exact Or.inr ⟨List.mem_cons_of_mem a h2, h3⟩

theorem chain'_collapseWs : ∀ l : List Char, List.Chain' WsSep (collapseWs l) := by
  intro l
  induction l with
  | nil => simp [collapseWs]
  | cons a as ih =>
    by_cases ha : isWsC a = true
    · cases as with
      | nil => rw [collapseWs_singleton_ws ha]; exact List.chain'_singleton _
      | cons b bs =>
        by_cases hb : isWsC b = true
        · rw [collapseWs_cons_ws_ws ha hb]; exact ih
        · have hb' : isWsC b = false := Bool.not_eq_true _ |>.mp hb
          rw [collapseWs_cons_ws_nonws ha hb']
          rw [collapseWs_cons_not_ws hb'] at ih ⊢
          rw [List.chain'_cons]
          refine ⟨fun hand => ?_, ih⟩
          rw [hb'] at hand
          exact Bool.false_ne_true hand.2
    · have ha' : isWsC a = false := Bool.not_eq_true _ |>.mp ha
      rw [collapseWs_cons_not_ws ha']
      rw [List.chain'_cons']
      refine ⟨fun y _ hand => ?_, ih⟩
      rw [ha'] at hand
      exact Bool.false_ne_true hand.1

theorem collapseWs_eq_self {l : List Char}
    (hsp : ∀ c ∈ l, isWsC c = true → c = ' ')
    (hch : List.Chain' WsSep l) : collapseWs l = l := by
  induction l with
  | nil => rfl
  | cons a as ih =>
    by_cases ha : isWsC a = true
    · have ha' : a = ' ' := hsp a (List.mem_cons_self a as) ha
      cases as with
      | nil => rw [collapseWs_singleton_ws ha, ha']
      | cons b bs =>
        have hsep : WsSep a b := (List.chain'_cons.mp hch).1
        have hb : isWsC b = false := by
          by_cases hb' : isWsC b = true
          · exact absurd ⟨ha, hb'⟩ hsep
          · exact Bool.not_eq_true _ |>.mp hb'
        rw [collapseWs_cons_ws_nonws ha hb]
        rw [ih (fun c hc hwc => hsp c (List.mem_cons_of_mem a hc) hwc)
          (List.chain'_cons.mp hch).2, ha']
    · rw [collapseWs_cons_not_ws (Bool.not_eq_true _ |>.mp ha)]
      rw [ih (fun c hc hwc => hsp c (List.mem_cons_of_mem a hc) hwc)
        (List.chain'_cons'.mp hch).2]

theorem mem_dropWhile {p : Char → Bool} :
    ∀ {l : List Char} {c : Char}, c ∈ l.dropWhile p → c ∈ l := by
  intro l
  induction l with
  | nil => intro c h; simp at h
  | cons a as ih =>
    intro c h
    rw [List.dropWhile_cons] at h
    split at h
    · exact List.mem_cons_of_mem a (ih h)
    · exact h

theorem chain'_dropWhile {p : Char → Bool} :
    ∀ {l : List Char}, List.Chain' WsSep l → List.Chain' WsSep (l.dropWhile p) := by
  intro l
  induction l with
  | nil => intro h; simp
  | cons a as ih =>
    intro h
    rw [List.dropWhile_cons]
    split
    · exact ih (List.chain'_cons'.mp h).2
    · exact h

theorem chain'_wsSep_reverse {l : List Char} (h : List.Chain' WsSep l) :
    List.Chain' WsSep l.reverse := by
  rw [List.chain'_reverse]
  exact h.imp (fun a b hab => fun ⟨x, y⟩ => hab ⟨y, x⟩)

theorem dropWhile_head_false {p : Char → Bool} :
    ∀ {l : List Char} {c : Char} {t : List Char}, l.dropWhile p = c :: t → p c = false := by
  intro l
  induction l with
  | nil => intro c t h; simp at h
  | cons a as ih =>
    intro c t h
    rw [List.dropWhile_cons] at h
    split at h
    · exact ih h
    · rename_i hpa
      obtain ⟨rfl, _⟩ := List.cons.inj h
      exact Bool.not_eq_true _ |>.mp hpa

theorem dropWhile_exists_prefix {p : Char → Bool} :
    ∀ l : List Char, ∃ u, l = u ++ l.dropWhile p := by
  intro l
  induction l with
  | nil => exact ⟨[], rfl⟩
  | cons a as ih =>
    by_cases h : p a = true
    · obtain ⟨u, hu⟩ := ih
      refine ⟨a :: u, ?_⟩
      rw [List.dropWhile_cons_of_pos h]
      exact congrArg (a :: ·) hu
    · refine ⟨[], ?_⟩
      rw [List.dropWhile_cons_of_neg (by simpa using h)]
      rfl

theorem dropWhile_eq_self_of_head {p : Char → Bool} {l : List Char}
    (h : ∀ c t, l = c :: t → p c = false) : l.dropWhile p = l := by
  cases l with
  | nil => rfl
  | cons c t =>
    rw [List.dropWhile_cons_of_neg]
    rw [h c t rfl]
    exact Bool.false_ne_true

/-- `trimWsL` output starts with a non-whitespace character. -/
theorem trimWsL_head_false {l : List Char} {c : Char} {t : List Char}
    (h : trimWsL l = c :: t) : isWsC c = false := by
  unfold trimWsL at h
  obtain ⟨u, hu⟩ := dropWhile_exists_prefix (p := isWsC) ((l.dropWhile isWsC).reverse)
  have hA : l.dropWhile isWsC
      = ((l.dropWhile isWsC).reverse.dropWhile isWsC).reverse ++ u.reverse := by
    have := congrArg List.reverse hu
    rw [List.reverse_reverse, List.reverse_append] at this
    exact this
  rw [h] at hA
  exact dropWhile_head_false hA

theorem trimWsL_idem (l : List Char) : trimWsL (trimWsL l) = trimWsL l := by
  have h1 : (trimWsL l).dropWhile isWsC = trimWsL l := by
    apply dropWhile_eq_self_of_head
    intro c t hct
    exact trimWsL_head_false hct
  have h2 : (trimWsL l).reverse.dropWhile isWsC = (trimWsL l).reverse := by
    apply dropWhile_eq_self_of_head
    intro c t hct
    unfold trimWsL at hct
    rw [List.reverse_reverse] at hct
    exact dropWhile_head_false hct
  show (((trimWsL l).dropWhile isWsC).reverse.dropWhile isWsC).reverse = trimWsL l
  rw [h1, h2, List.reverse_reverse]

theorem mem_trimWsL {l : List Char} {c : Char} (h : c ∈ trimWsL l) : c ∈ l := by
  unfold trimWsL at h
  rw [List.mem_reverse] at h
  have h2 := mem_dropWhile h
  rw [List.mem_reverse] at h2
  exact mem_dropWhile h2

theorem chain'_trimWsL {l : List Char} (h : List.Chain' WsSep l) :
    List.Chain' WsSep (trimWsL l) := by
  unfold trimWsL
  exact chain'_wsSep_reverse (chain'_dropWhile (chain'_wsSep_reverse (chain'_dropWhile h)))

/-- C7 (corrected): `normalizeCanonical` is not idempotent in general
(see the counterexample: stripping brackets or unit tokens can create a
new number+unit adjacency that only a second pass removes).  It is
idempotent on every input whose normalized form contains no digit — with
no digits left, the three digit-anchored stripping passes are identities,
the output is already bracket-free, and whitespace is already collapsed
and trimmed. -/
theorem c7_normalize_idempotent_on_digit_free (s : String)
    (h : ∀ c ∈ (normalizeCanonical s).data, isDigitC c = false) :
    normalizeCanonical (normalizeCanonical s) = normalizeCanonical s := by
  have hy : (normalizeCanonical s).data
      = trimWsL (collapseWs (removeBrackets (stripPct (stripMul (stripUnits s.data))))) := rfl
  have hmemc : ∀ c ∈ (normalizeCanonical s).data,
      c = ' ' ∨ (c ∈ removeBrackets (stripPct (stripMul (stripUnits s.data)))
        ∧ isWsC c = false) := by
    intro c hc
    rw [hy] at hc
    exact mem_collapseWs (mem_trimWsL hc)
  have hbr : ∀ c ∈ (normalizeCanonical s).data, isBracketC c = false := by
    intro c hc
    rcases hmemc c hc with rfl | ⟨h2, _⟩
    · decide
    · have := List.mem_filter.mp h2
      simpa using this.2
  have hsp : ∀ c ∈ (normalizeCanonical s).data, isWsC c = true → c = ' ' := by
    intro c hc hwc
    rcases hmemc c hc with rfl | ⟨_, h3⟩
    · rfl
    · rw [h3] at hwc
      exact absurd hwc Bool.false_ne_true
  have hch : List.Chain' WsSep (normalizeCanonical s).data := by
    rw [hy]
    exact chain'_trimWsL (chain'_collapseWs _)
  have hrb : removeBrackets (normalizeCanonical s).data = (normalizeCanonical s).data :=
    List.filter_eq_self.mpr (fun c hc => by rw [hbr c hc]; rfl)
  show String.mk (trimWsL (collapseWs (removeBrackets (stripPct (stripMul
    (stripUnits (normalizeCanonical s).data)))))) = normalizeCanonical s
  rw [stripUnits_id h, stripMul_id h, stripPct_id h, hrb, collapseWs_eq_self hsp hch,
    hy, trimWsL_idem]
  rfl

theorem c7_witness :
    (∀ c ∈ (normalizeCanonical "apple (red)").data, isDigitC c = false)
    ∧ normalizeCanonical (normalizeCanonical "apple (red)") = normalizeCanonical "apple (red)" :=
  ⟨by decide, c7_normalize_idempotent_on_digit_free "apple (red)" (by decide)⟩
